import Mathlib

/-!
Verification development for the real-time reminder and notification
delivery subsystem of the salesmaster-teamhub repository.

The repository ships the design documentation and a k6 load-testing
client (scripts/load-test.js, embedded in the infra document) but not
the production implementation of the core; definitions below marked
`Modelled from the spec:` embed the missing component faithfully from
the specification's words, while the protocol-client definitions are
embedded from the load-test script.
-/

namespace SalesMaster


/-! ### Calendar model (dates, day counts) -/

/-- Gregorian leap-year test. -/
def isLeap (y : Nat) : Bool :=
  (y % 4 == 0 && y % 100 != 0) || (y % 400 == 0)


/-- Number of days in month `m` (1..12) of year `y`. -/
def daysInMonth (y m : Nat) : Nat :=
  if m = 2 then (if isLeap y then 29 else 28)
  else if m = 4 ∨ m = 6 ∨ m = 9 ∨ m = 11 then 30
  else 31


/-- Number of days in year `y`. -/
def daysInYear (y : Nat) : Nat :=
  if isLeap y then 366 else 365


/-- Number of leap years in `[0, y)` (year 0 counts as a leap year). -/
def leapsBefore (y : Nat) : Nat :=
  (y + 3) / 4 - (y + 99) / 100 + (y + 399) / 400


/-- Days in all years before year `y` (proleptic, epoch at year 0). -/
def daysBeforeYear (y : Nat) : Nat :=
  365 * y + leapsBefore y


/-- Days in all months of year `y` strictly before month `m`. -/
def daysBeforeMonth (y : Nat) : Nat → Nat
  | 0 => 0
  | m + 1 => daysBeforeMonth y m + if m = 0 then 0 else daysInMonth y m


/-- A calendar date. -/
structure Date where
  y : Nat
  m : Nat
  d : Nat
  deriving DecidableEq, Repr


/-- Validity of a calendar date. -/
def ValidDate (dt : Date) : Prop :=
  1 ≤ dt.m ∧ dt.m ≤ 12 ∧ 1 ≤ dt.d ∧ dt.d ≤ daysInMonth dt.y dt.m


instance (dt : Date) : Decidable (ValidDate dt) := by
  unfold ValidDate; infer_instance


/-- Timestamp of a date, as a day count since the epoch. -/
def dateToDays (dt : Date) : Nat :=
  daysBeforeYear dt.y + daysBeforeMonth dt.y dt.m + (dt.d - 1)


/-- Lexicographic (chronological) order on dates. -/
def DateLt (a b : Date) : Prop :=
  a.y < b.y ∨ (a.y = b.y ∧ (a.m < b.m ∨ (a.m = b.m ∧ a.d < b.d)))


/-! ### Recurrence Engine

Modelled from the spec: the Recurrence Engine is described in §4.1 as a
pure function `nextOccurrence(rule, fromTimestamp) → Timestamp | None`,
where the occurrences of a rule are `base + k * interval * unit` for
integer `k ≥ 0`, with calendar semantics for monthly/yearly (day of
month clamped to the target month's last day); the implementation is
not part of the repository sources. -/

/-- Recurrence rule kinds from the spec data model. -/
inductive RecurrenceKind where
  | noRec | daily | weekly | monthly | yearly
  deriving DecidableEq, Repr


/-- Modelled from the spec: a recurrence rule (kind, positive interval,
base date, optional end date as a day timestamp); the repository does
not contain the RecurrenceRule type itself. -/
structure RecurrenceRule where
  kind : RecurrenceKind
  interval : Nat
  base : Date
  endDate : Option Nat
  deriving DecidableEq, Repr


/-- Calendar addition of `n` months with day-of-month clamping. -/
def addMonths (dt : Date) (n : Nat) : Date :=
  let t := dt.m - 1 + n
  let y := dt.y + t / 12
  let m := t % 12 + 1
  { y := y, m := m, d := min dt.d (daysInMonth y m) }


/-- Calendar addition of `n` years with day-of-month clamping. -/
def addYears (dt : Date) (n : Nat) : Date :=
  let y := dt.y + n
  { y := y, m := dt.m, d := min dt.d (daysInMonth y dt.m) }


/-- The `k`-th occurrence of a rule, as a day timestamp:
`base + k * interval * unit` with calendar semantics. -/
def occurrenceAt (r : RecurrenceRule) (k : Nat) : Nat :=
  match r.kind with
  | .noRec => dateToDays r.base
  | .daily => dateToDays r.base + k * r.interval
  | .weekly => dateToDays r.base + k * r.interval * 7
  | .monthly => dateToDays (addMonths r.base (k * r.interval))
  | .yearly => dateToDays (addYears r.base (k * r.interval))


/-- Bounded search for the least `k ≥ k₀` whose occurrence is strictly
after `fromTs`. -/
def findLeastAbove (r : RecurrenceRule) (fromTs : Nat) : Nat → Nat → Nat
  | 0, k => k
  | fuel + 1, k =>
    if fromTs < occurrenceAt r k then k
    else findLeastAbove r fromTs fuel (k + 1)


/-- Modelled from the spec: `nextOccurrence(rule, fromTimestamp)`
(§4.1) — the smallest occurrence strictly greater than `fromTimestamp`,
`None` for kind `none`, and `None` when the computed occurrence exceeds
a set `endDate`; the engine implementation is not in the repository
sources. -/
def nextOccurrence (r : RecurrenceRule) (fromTs : Nat) : Option Nat :=
  match r.kind with
  | .noRec => Option.none
  | _ =>
    let t := occurrenceAt r (findLeastAbove r fromTs (fromTs + 2) 0)
    match r.endDate with
    | Option.none => some t
    | some e => if e < t then Option.none else some t


/-! ### Due-Time Scheduler

Modelled from the spec: the Due-Time Scheduler (§4.2) owns a
time-ordered index of entries `(reminderId, dueAt, generation)`,
supporting `schedule`, `cancel` and `poll`; the implementation is not
part of the repository sources. -/

/-- Reminder status from the spec data model. -/
inductive RStatus where
  | active | paused | cancelled
  deriving DecidableEq, Repr


/-- A scheduler index entry: reminder id, next-due timestamp, and the
generation counter bumped on every reschedule. -/
structure Entry where
  rid : Nat
  dueAt : Nat
  gen : Nat
  deriving DecidableEq, Repr


/-- Modelled from the spec: scheduler state — the due-time index plus
the read-derived reminder statuses and recurrence rules; the Scheduler
implementation is not in the repository sources. -/
structure SchedState where
  index : List Entry
  status : Nat → RStatus
  rules : Nat → RecurrenceRule


/-- Remove all entries of a reminder id from the index. -/
def removeEntry (idx : List Entry) (rid : Nat) : List Entry :=
  idx.filter (fun e => e.rid != rid)


/-- Stored generation of a reminder id (0 when absent). -/
def genOf (idx : List Entry) (rid : Nat) : Nat :=
  match idx.find? (fun e => e.rid == rid) with
  | some e => e.gen
  | Option.none => 0


/-- Modelled from the spec: `schedule(reminderId, dueAt)` — insert or
reposition, bumping the generation; cancelled/paused reminders never
enter the index. -/
def schedule (s : SchedState) (rid dueAt : Nat) : SchedState :=
  if s.status rid = RStatus.active then
    { s with index := ⟨rid, dueAt, genOf s.index rid + 1⟩ :: removeEntry s.index rid }
  else s


/-- Modelled from the spec: `cancel(reminderId)` — remove if present,
no-op otherwise; the reminder's status becomes cancelled. -/
def cancelRem (s : SchedState) (rid : Nat) : SchedState :=
  { s with index := removeEntry s.index rid,
           status := fun i => if i = rid then RStatus.cancelled else s.status i }


/-- Modelled from the spec: pausing a reminder removes it from the
index and marks it paused. -/
def pauseRem (s : SchedState) (rid : Nat) : SchedState :=
  { s with index := removeEntry s.index rid,
           status := fun i => if i = rid then RStatus.paused else s.status i }


/-- Entries due at `now`. -/
def dueEntries (s : SchedState) (now : Nat) : List Entry :=
  s.index.filter (fun e => decide (e.dueAt ≤ now))


/-- Modelled from the spec: `poll(now)` — return all entries with
`dueAt ≤ now` and remove them from the index; reinsertion of recurring
rules happens only after the Dispatcher has consumed the firing. -/
def poll (s : SchedState) (now : Nat) : List Nat × SchedState :=
  ((dueEntries s now).map Entry.rid,
   { s with index := s.index.filter (fun e => decide (now < e.dueAt)) })


/-- Modelled from the spec: after the Dispatcher has consumed a firing,
recurring entries are reinserted with the engine-computed next
occurrence and a bumped generation, while `none`-kind reminders
transition to cancelled. -/
def reinsertAfterFire (s : SchedState) (fired : List Entry) : SchedState :=
  { s with
    index := s.index ++ fired.filterMap (fun e =>
      if (s.rules e.rid).kind = RecurrenceKind.noRec then Option.none
      else Option.map (fun t => Entry.mk e.rid t (e.gen + 1))
        (nextOccurrence (s.rules e.rid) e.dueAt)),
    status := fun i =>
      if fired.any (fun e => e.rid == i) && decide ((s.rules i).kind = RecurrenceKind.noRec)
      then RStatus.cancelled else s.status i }


/-- One full scheduler cycle: poll, dispatch, then reinsert. -/
def cycle (s : SchedState) (now : Nat) : List Nat × SchedState :=
  let p := poll s now
  (p.1, reinsertAfterFire p.2 (dueEntries s now))


/-- Scheduler operations driven by the store adapter and the tick source. -/
inductive SchedOp where
  | schedule (rid dueAt : Nat)
  | cancel (rid : Nat)
  | pause (rid : Nat)
  | tick (now : Nat)


def applyOp (s : SchedState) : SchedOp → SchedState
  | .schedule rid dueAt => schedule s rid dueAt
  | .cancel rid => cancelRem s rid
  | .pause rid => pauseRem s rid
  | .tick now => (cycle s now).2


def run (s : SchedState) : List SchedOp → SchedState
  | [] => s
  | op :: ops => run (applyOp s op) ops


/-- Scheduler invariant: index reminder ids are distinct and only
active reminders appear in the index. -/
def Inv (s : SchedState) : Prop :=
  (s.index.map Entry.rid).Nodup ∧ ∀ e ∈ s.index, s.status e.rid = RStatus.active


instance (s : SchedState) : Decidable (Inv s) := by
  unfold Inv; infer_instance


/-! ### Fire events and the Dispatcher's stale-fire guard -/

/-- Modelled from the spec: a fire event embeds the generation it was
drawn from (§4.2); the Dispatcher implementation is not in the
repository sources. -/
structure FireEvent where
  rid : Nat
  gen : Nat
  deriving DecidableEq, Repr


/-- The fire event drawn from a scheduler entry. -/
def fireEventOf (e : Entry) : FireEvent := ⟨e.rid, e.gen⟩


/-- Outcome of presenting a fire event to the Dispatcher. -/
inductive FireOutcome where
  | dispatched (rid : Nat)
  | staleDropped (rid : Nat)
  deriving DecidableEq, Repr


/-- Modelled from the spec: the Dispatcher discards a fire if the
stored generation has since advanced past the embedded one (stale-fire
guard, §4.2). -/
def checkFire (storedGen : Nat) (f : FireEvent) : FireOutcome :=
  if f.gen < storedGen then .staleDropped f.rid else .dispatched f.rid


/-- Modelled from the spec: a stale fire is not user-visible (§7). -/
def userVisible : FireOutcome → Bool
  | .dispatched _ => true
  | .staleDropped _ => false


/-- Modelled from the spec: every outcome is logged for observability
(§7); in particular a stale drop is logged, not lost. -/
def loggedForObservability : FireOutcome → Bool
  | _ => true


/-! ### Delivery model: retry with backoff, Delivery Tracker -/

/-- Delivery status from the spec data model. -/
inductive DStatus where
  | pending | delivered | failed
  deriving DecidableEq, Repr


/-- A delivery record for one (notification, channel) pair. -/
structure DeliveryRecord where
  status : DStatus
  attempts : Nat
  lastAttempt : Nat
  deriving DecidableEq, Repr


/-- Result of one transport send attempt. -/
inductive SendResult where
  | ok | transientErr | permanentErr
  deriving DecidableEq, Repr


/-- Modelled from the spec §4.4: the retry bound (cap 5 attempts). -/
def maxAttempts : Nat := 5


/-- Modelled from the spec §4.4: exponential backoff delay before the
`i`-th retry, in seconds (base 1s, factor 2). -/
def backoffDelay (i : Nat) : Nat := 1 * 2 ^ i


/-- Modelled from the spec §4.4: attempt a send up to `n` more times
(`i` attempts already made); returns final status, total attempts, and
the number of alerts raised to the alerting/audit collaborator. The
Dispatcher implementation is not in the repository sources. -/
def retryLoop (send : Nat → SendResult) : Nat → Nat → DStatus × Nat × Nat
  | 0, i => (DStatus.failed, i, 1)
  | n + 1, i =>
    match send i with
    | SendResult.ok => (DStatus.delivered, i + 1, 0)
    | SendResult.permanentErr => (DStatus.failed, i + 1, 1)
    | SendResult.transientErr => retryLoop send n (i + 1)


/-- Deliver with retry: run the bounded retry loop and record the
resulting DeliveryRecord together with the alert count. -/
def deliverWithRetry (send : Nat → SendResult) (t : Nat) : DeliveryRecord × Nat :=
  let r := retryLoop send maxAttempts 0
  (⟨r.1, r.2.1, t⟩, r.2.2)


/-- Delivery Tracker entry, keyed by (notification, channel). -/
structure TrackEntry where
  nid : Nat
  cid : Nat
  record : DeliveryRecord
  deriving DecidableEq, Repr


/-- Modelled from the spec §4.5: look up the DeliveryRecord of a
(notificationId, channelId) pair; the Tracker implementation is not in
the repository sources. -/
def lookupRec (st : List TrackEntry) (nid cid : Nat) : Option DeliveryRecord :=
  match st.find? (fun te => te.nid == nid && te.cid == cid) with
  | some te => some te.record
  | Option.none => Option.none


/-- Modelled from the spec §4.5: `recordAttempt(notificationId,
channelId, outcome)` — update the existing record in place, or insert a
fresh one; never creates a second record for the same pair. -/
def recordAttempt (st : List TrackEntry) (nid cid : Nat) (outcome : DStatus)
    (t : Nat) : List TrackEntry :=
  match lookupRec st nid cid with
  | some r => st.map (fun te =>
      if te.nid == nid && te.cid == cid
      then { te with record := ⟨outcome, r.attempts + 1, t⟩ } else te)
  | Option.none => ⟨nid, cid, ⟨outcome, 1, t⟩⟩ :: st


/-- Modelled from the spec §4.5: `isAlreadyDelivered(notificationId,
channelId)`. -/
def isAlreadyDelivered (st : List TrackEntry) (nid cid : Nat) : Bool :=
  match lookupRec st nid cid with
  | some r => decide (r.status = DStatus.delivered)
  | Option.none => false


/-- Modelled from the spec §4.5: the Dispatcher's retry path consults
`isAlreadyDelivered` before re-sending; returns the new store and the
number of sends performed. -/
def retrySend (st : List TrackEntry) (nid cid : Nat) (t : Nat) :
    List TrackEntry × Nat :=
  if isAlreadyDelivered st nid cid then (st, 0)
  else (recordAttempt st nid cid DStatus.delivered t, 1)


/-- The key of a tracker entry. -/
def keyOf (te : TrackEntry) : Nat × Nat := (te.nid, te.cid)


/-- Tracker invariant: keys are pairwise distinct. -/
def TInv (st : List TrackEntry) : Prop := (st.map keyOf).Nodup


instance (st : List TrackEntry) : Decidable (TInv st) := by
  unfold TInv; infer_instance


/-- Number of records stored for one (notification, channel) pair. -/
def keyCount (st : List TrackEntry) (nid cid : Nat) : Nat :=
  (st.filter (fun te => te.nid == nid && te.cid == cid)).length


/-! ### stream-a (GraphQL-subscription style) client

Embedded from the load-test client (scripts/load-test.js): the
message handler of the GraphQL subscription WebSocket and the messages
sent on open. -/

/-- A notification payload as selected by the subscription query:
fields id, message, type. -/
structure NotificationPayload where
  id : Nat
  message : String
  type : String
  deriving DecidableEq, Repr


/-- Server-to-client messages of the stream-a protocol, as
discriminated by the client handler on `msg.type`. -/
inductive GqlMsg where
  | connectionAck
  | ka
  | dataMsg (p : NotificationPayload)
  | errMsg
  | otherMsg
  deriving DecidableEq, Repr


/-- Actions the load-test client takes per incoming message. -/
inductive ClientAction where
  | receivedNotification (p : NotificationPayload)
  | ackLogged
  | ignored
  | errorLogged
  deriving DecidableEq, Repr


/-- The client's message handler (scripts/load-test.js, the
`socket.on` message callback of the GraphQL scenario): data payloads
are counted as notifications, `connection_ack` is logged, `ka`
keep-alive frames are ignored, errors are logged. -/
def clientHandle : GqlMsg → ClientAction
  | .dataMsg p => .receivedNotification p
  | .connectionAck => .ackLogged
  | .ka => .ignored
  | .errMsg => .errorLogged
  | .otherMsg => .ignored


/-- Client-to-server messages sent by the load-test client. -/
inductive ClientMsg where
  | connectionInit
  | start (subscriptionId : String) (userId : String)
  deriving DecidableEq, Repr


/-- On open, the client sends `connection_init` and then a `start`
message whose subscription variables carry the userId
(scripts/load-test.js, the `socket.on` open callback). -/
def onOpenMessages (subscriptionId userId : String) : List ClientMsg :=
  [ClientMsg.connectionInit, ClientMsg.start subscriptionId userId]


/-- The selection set of the `onNotification` subscription query sent
by the client (scripts/load-test.js, the GraphQL query text). -/
def subscriptionSelection : List String := ["id", "message", "type"]


/-- Modelled from the spec §6: the server streams notification
payloads carrying exactly the subscribed selection; the subscription
server is not in the repository sources. -/
def deliveredNotificationFields : List String := subscriptionSelection


/-- The field names of `NotificationPayload`. -/
def payloadFieldNames : List String := ["id", "message", "type"]


/-! ### Reminder creation (external API layer) -/

/-- The reminder-creation request shape sent by the load-test client
(scripts/load-test.js, `reminderPayload`). -/
structure CreateReminderReq where
  userId : String
  title : String
  category : String
  date : Date
  recurrence : String
  deriving DecidableEq, Repr


/-- Validation errors rejected synchronously at creation. -/
inductive ValidationError where
  | missingField (name : String)
  | badDate
  | badRecurrence
  deriving DecidableEq, Repr


/-- Parse a recurrence kind from its wire string. -/
def parseRecurrence : String → Option RecurrenceKind
  | "none" => some RecurrenceKind.noRec
  | "daily" => some RecurrenceKind.daily
  | "weekly" => some RecurrenceKind.weekly
  | "monthly" => some RecurrenceKind.monthly
  | "yearly" => some RecurrenceKind.yearly
  | _ => Option.none


/-- Modelled from the spec §6/§7: reminder creation validates required
fields and the recurrence rule's well-formedness; the backend service
is not in the repository sources. -/
def validateReq (req : CreateReminderReq) : Option ValidationError :=
  if req.userId = "" then some (ValidationError.missingField "userId")
  else if req.title = "" then some (ValidationError.missingField "title")
  else if ¬ ValidDate req.date then some ValidationError.badDate
  else
    match parseRecurrence req.recurrence with
    | Option.none => some ValidationError.badRecurrence
    | some _ => Option.none


/-- A created reminder record. -/
structure Reminder where
  id : Nat
  userId : String
  title : String
  category : String
  base : Date
  rule : RecurrenceRule
  nextDue : Nat
  status : RStatus
  deriving DecidableEq, Repr


/-- Bounded search for the least `k ≥ k₀` whose occurrence is at or
after `now`. -/
def findLeastDue (r : RecurrenceRule) (now : Nat) : Nat → Nat → Nat
  | 0, k => k
  | fuel + 1, k =>
    if now ≤ occurrenceAt r k then k
    else findLeastDue r now fuel (k + 1)


/-- Modelled from the spec §3: the initial next-due timestamp is the
earliest occurrence at or after `now`. -/
def initialNextDue (r : RecurrenceRule) (now : Nat) : Nat :=
  occurrenceAt r (findLeastDue r now (now + 1) 0)


/-- Modelled from the spec §6: create a Reminder (with a fresh id and
computed initial next-due timestamp) or return a validation error. -/
def createReminder (req : CreateReminderReq) (freshId : Nat) (now : Nat) :
    Except ValidationError Reminder :=
  match validateReq req with
  | some e => Except.error e
  | Option.none =>
    match parseRecurrence req.recurrence with
    | Option.none => Except.error ValidationError.badRecurrence
    | some k =>
      Except.ok { id := freshId, userId := req.userId, title := req.title,
                  category := req.category, base := req.date,
                  rule := ⟨k, 1, req.date, Option.none⟩,
                  nextDue := initialNextDue ⟨k, 1, req.date, Option.none⟩ now,
                  status := RStatus.active }


/-- The HTTP status the external API layer maps a creation result to
(the load-test client checks 201 on success). -/
def httpStatusOf : Except ValidationError Reminder → Nat
  | Except.ok _ => 201
  | Except.error _ => 400


/-- Modelled from the spec §7: the error taxonomy. -/
inductive ErrClass where
  | validation | transientDelivery | permanentDelivery | staleFire
  deriving DecidableEq, Repr


/-- Modelled from the spec §7: only transient delivery errors are
retried; validation errors are never retried. -/
def isRetried : ErrClass → Bool
  | ErrClass.transientDelivery => true
  | _ => false


/-- Modelled from the spec §7: only validation errors propagate to the
caller of reminder creation; delivery errors are surfaced only through
audit/alerting collaborators. -/
def propagatesToCreationCaller : ErrClass → Bool
  | ErrClass.validation => true
  | _ => false


/-! ### stream-b (Socket.io style) handshake decoding

Embedded from the load-test client (scripts/load-test.js, the
SocketIO_Polling step): the polling response body may carry a
length/type prefix before the JSON handshake object; the client checks
for the `"sid":"` marker, takes the substring from the first brace,
parses it as JSON (compact JSON, no escape sequences — the handshake
format), and on any parse failure leaves the sid empty and skips the
WebSocket upgrade. -/

/-- The opening brace character. -/
def lbrace : Char := Char.ofNat 123


/-- The closing brace character. -/
def rbrace : Char := Char.ofNat 125


/-- A JSON value (strings without escapes, natural-number literals). -/
inductive Json where
  | jStr (s : List Char)
  | jNum (n : Nat)
  | jBool (b : Bool)
  | jNull
  | jArr (xs : List Json)
  | jObj (kvs : List (List Char × Json))


/-- Parse a string body after the opening quote: content up to the
closing quote. -/
def parseStringBody : List Char → Option (List Char × List Char)
  | [] => Option.none
  | c :: rest =>
    if c = '"' then some ([], rest)
    else
      match parseStringBody rest with
      | some (s, r) => some (c :: s, r)
      | Option.none => Option.none


def isDigit (c : Char) : Bool := '0' ≤ c && c ≤ '9'


/-- Parse a run of digits into a natural number. -/
def parseNumBody : List Char → Nat → Nat × List Char
  | [], acc => (acc, [])
  | c :: rest, acc =>
    if isDigit c then parseNumBody rest (acc * 10 + (c.toNat - 48))
    else (acc, c :: rest)


/-- Parser modes: a single value, object members, array elements. -/
inductive PMode where
  | val | members | elems


/-- Fuel-bounded recursive-descent JSON parser; `members` mode returns
a `jObj`, `elems` mode a `jArr`. -/
def parseP : Nat → PMode → List Char → Option (Json × List Char)
  | 0, _, _ => Option.none
  | fuel + 1, PMode.val, cs =>
    match cs with
    | [] => Option.none
    | c :: rest =>
      if c = '"' then
        match parseStringBody rest with
        | some (s, r) => some (Json.jStr s, r)
        | Option.none => Option.none
      else if c = lbrace then
        match rest with
        | [] => Option.none
        | c2 :: rest2 =>
          if c2 = rbrace then some (Json.jObj [], rest2)
          else parseP fuel PMode.members (c2 :: rest2)
      else if c = '[' then
        match rest with
        | [] => Option.none
        | c2 :: rest2 =>
          if c2 = ']' then some (Json.jArr [], rest2)
          else parseP fuel PMode.elems (c2 :: rest2)
      else if isDigit c then
        some (Json.jNum (parseNumBody cs 0).1, (parseNumBody cs 0).2)
      else if c = 't' then
        match rest with
        | 'r' :: 'u' :: 'e' :: r => some (Json.jBool true, r)
        | _ => Option.none
      else if c = 'f' then
        match rest with
        | 'a' :: 'l' :: 's' :: 'e' :: r => some (Json.jBool false, r)
        | _ => Option.none
      else if c = 'n' then
        match rest with
        | 'u' :: 'l' :: 'l' :: r => some (Json.jNull, r)
        | _ => Option.none
      else Option.none
  | fuel + 1, PMode.members, cs =>
    match cs with
    | [] => Option.none
    | c :: rest =>
      if c = '"' then
        match parseStringBody rest with
        | some (k, ':' :: r2) =>
          match parseP fuel PMode.val r2 with
          | some (v, ',' :: r4) =>
            match parseP fuel PMode.members r4 with
            | some (Json.jObj kvs, r5) => some (Json.jObj ((k, v) :: kvs), r5)
            | _ => Option.none
          | some (v, c5 :: r5) =>
            if c5 = rbrace then some (Json.jObj [(k, v)], r5) else Option.none
          | _ => Option.none
        | _ => Option.none
      else Option.none
  | fuel + 1, PMode.elems, cs =>
    match parseP fuel PMode.val cs with
    | some (v, ',' :: r2) =>
      match parseP fuel PMode.elems r2 with
      | some (Json.jArr vs, r3) => some (Json.jArr (v :: vs), r3)
      | _ => Option.none
    | some (v, ']' :: r2) => some (Json.jArr [v], r2)
    | _ => Option.none


/-- JSON.parse analogue: parse a full value consuming the whole input
(trailing characters are a parse error, as in `JSON.parse`). -/
def parseJson (cs : List Char) : Option Json :=
  match parseP (2 * cs.length + 2) PMode.val cs with
  | some (j, []) => some j
  | _ => Option.none


/-- The `"sid":"` marker the client checks for in the polling body. -/
def sidMarker : List Char := '"' :: 's' :: 'i' :: 'd' :: '"' :: ':' :: '"' :: []


/-- The key `sid`. -/
def sidKey : List Char := 's' :: 'i' :: 'd' :: []


/-- The substring of the body starting at the first brace
(`body.substring(body.indexOf(brace))`; when no brace is present,
`indexOf` yields -1 and `substring(-1)` clamps to the whole body). -/
def bodyContent (body : List Char) : List Char :=
  if lbrace ∈ body then body.dropWhile (fun c => c != lbrace) else body


/-- Look up a string field of a parsed object (the client reads
`parsedBody.sid`; a non-object or missing/non-string field leaves the
sid empty/falsy). -/
def getStrField (j : Json) (key : List Char) : List Char :=
  match j with
  | Json.jObj kvs =>
    match kvs.find? (fun kv => kv.1 == key) with
    | some kv =>
      match kv.2 with
      | Json.jStr s => s
      | _ => []
    | Option.none => []
  | _ => []


/-- The sid extraction of the load-test client: guarded by the marker
check, parse from the first brace, read `.sid`; any failure leaves the
sid empty (the try/catch around `JSON.parse`). -/
def extractSid (body : List Char) : List Char :=
  if sidMarker <:+: body then
    match parseJson (bodyContent body) with
    | some j => getStrField j sidKey
    | Option.none => []
  else []


/-- The client upgrades to the WebSocket transport only when a
non-empty sid was extracted (`if (sid) { ... }`). -/
def shouldUpgrade (body : List Char) : Bool :=
  decide (extractSid body ≠ [])


/-- The characters of a realistic handshake JSON object after its
opening brace. -/
def handshakeTail : List Char :=
  "\"sid\":\"abc123\",\"upgrades\":[\"websocket\"],\"pingInterval\":25000,\"pingTimeout\":5000\x7d".toList


/-- A realistic handshake body (JSON part). -/
def handshakeSample : List Char := lbrace :: handshakeTail


/-- The sid carried by `handshakeSample`. -/
def sampleSid : List Char := "abc123".toList


/-- A prefixed body whose JSON part is malformed (unterminated). -/
def malformedSample : List Char :=
  '9' :: '6' :: ':' :: '0' :: lbrace :: "\"sid\":\"abc".toList


/-- Witness state for C3: one active none-kind reminder due at 5. -/
def witState3 : SchedState :=
  ⟨[⟨1, 5, 0⟩], fun _ => RStatus.active,
   fun _ => ⟨RecurrenceKind.noRec, 1, ⟨2024, 1, 1⟩, Option.none⟩⟩


/-- Witness state for C4: one active daily reminder due at 3. -/
def witState4 : SchedState :=
  ⟨[⟨1, 3, 0⟩], fun _ => RStatus.active,
   fun _ => ⟨RecurrenceKind.daily, 1, ⟨0, 1, 1⟩, Option.none⟩⟩


/-- Witness state for C5: one active entry with generation 4. -/
def witState5 : SchedState :=
  ⟨[⟨2, 9, 4⟩], fun _ => RStatus.active,
   fun _ => ⟨RecurrenceKind.daily, 1, ⟨0, 1, 1⟩, Option.none⟩⟩


/-- Witness store for C7: one delivered record for pair (1, 2). -/
def witStore7 : List TrackEntry := [⟨1, 2, ⟨DStatus.delivered, 1, 0⟩⟩]


/-- Witness request for C9: the load-test creation payload shape. -/
def witReq9 : CreateReminderReq :=
  ⟨"user_1_0", "Team Meeting Reminder", "Meeting", ⟨2024, 1, 1⟩, "weekly"⟩

/-! ### Theorems -/


theorem daysBeforeYear_succ (y : Nat) :
    daysBeforeYear (y + 1) = daysBeforeYear y + daysInYear y := by
  simp only [daysBeforeYear, daysInYear, leapsBefore, isLeap,
    Bool.or_eq_true, Bool.and_eq_true, beq_iff_eq, bne_iff_ne, ne_eq,
    decide_eq_true_eq]
  split_ifs with h <;> omega


theorem daysInMonth_pos (y m : Nat) : 1 ≤ daysInMonth y m := by
  unfold daysInMonth
  split_ifs <;> omega


theorem daysBeforeMonth_succ (y m : Nat) (h : 1 ≤ m) :
    daysBeforeMonth y (m + 1) = daysBeforeMonth y m + daysInMonth y m := by
  have : ¬ m = 0 := by omega
  simp [daysBeforeMonth, this]


theorem daysBeforeMonth_mono (y : Nat) {m₁ m₂ : Nat} (h : m₁ ≤ m₂) :
    daysBeforeMonth y m₁ ≤ daysBeforeMonth y m₂ := by
  induction m₂ with
  | zero =>
    have : m₁ = 0 := by omega
    simp [this]
  | succ n ih =>
    rcases Nat.lt_or_ge m₁ (n + 1) with hlt | hge
    · have := ih (by omega)
      have : daysBeforeMonth y n ≤ daysBeforeMonth y (n + 1) := by
        simp [daysBeforeMonth]
      omega
    · have : m₁ = n + 1 := by omega
      simp [this]


theorem daysBeforeMonth_13 (y : Nat) :
    daysBeforeMonth y 13 = daysInYear y := by
  cases h : isLeap y <;>
    simp [daysBeforeMonth, daysInMonth, daysInYear, h]


theorem monthOffset_lt_daysInYear (y m d : Nat)
    (h1 : 1 ≤ m) (h2 : m ≤ 12) (h3 : 1 ≤ d) (h4 : d ≤ daysInMonth y m) :
    daysBeforeMonth y m + (d - 1) < daysInYear y := by
  have hsucc := daysBeforeMonth_succ y m h1
  have hmono := daysBeforeMonth_mono y (show m + 1 ≤ 13 by omega)
  have h13 := daysBeforeMonth_13 y
  omega


theorem daysBeforeYear_mono {y₁ y₂ : Nat} (h : y₁ ≤ y₂) :
    daysBeforeYear y₁ ≤ daysBeforeYear y₂ := by
  induction y₂ with
  | zero => simp_all
  | succ n ih =>
    rcases Nat.lt_or_ge y₁ (n + 1) with hlt | hge
    · have := ih (by omega)
      have := daysBeforeYear_succ n
      omega
    · have : y₁ = n + 1 := by omega
      simp [this]


/-- `dateToDays` is strictly monotone on valid dates. -/
theorem dateToDays_lt {a b : Date} (ha : ValidDate a) (hb : ValidDate b)
    (hlt : DateLt a b) : dateToDays a < dateToDays b := by
  obtain ⟨ham1, ham2, had1, had2⟩ := ha
  obtain ⟨hbm1, hbm2, hbd1, hbd2⟩ := hb
  rcases hlt with hy | ⟨hy, hm | ⟨hm, hd⟩⟩
  · -- year strictly smaller
    have hlt1 := monthOffset_lt_daysInYear a.y a.m a.d ham1 ham2 had1 had2
    have hstep := daysBeforeYear_succ a.y
    have hmono := daysBeforeYear_mono (show a.y + 1 ≤ b.y by omega)
    unfold dateToDays
    omega
  · -- same year, month strictly smaller
    have hsucc := daysBeforeMonth_succ a.y a.m ham1
    have hmono := daysBeforeMonth_mono a.y (show a.m + 1 ≤ b.m by omega)
    unfold dateToDays
    rw [← hy]
    omega
  · -- same year and month, day strictly smaller
    unfold dateToDays
    rw [hy, hm]
    omega


theorem addMonths_valid {dt : Date} (h : ValidDate dt) (n : Nat) :
    ValidDate (addMonths dt n) := by
  obtain ⟨h1, h2, h3, h4⟩ := h
  refine ⟨by simp [addMonths], ?_, ?_, ?_⟩
  · simp only [addMonths]
    omega
  · simp only [addMonths]
    have := daysInMonth_pos (dt.y + (dt.m - 1 + n) / 12) ((dt.m - 1 + n) % 12 + 1)
    omega
  · simp only [addMonths]
    exact Nat.min_le_right _ _


theorem addYears_valid {dt : Date} (h : ValidDate dt) (n : Nat) :
    ValidDate (addYears dt n) := by
  obtain ⟨h1, h2, h3, h4⟩ := h
  refine ⟨by simpa [addYears] using h1, by simpa [addYears] using h2, ?_, ?_⟩
  · simp only [addYears]
    have := daysInMonth_pos (dt.y + n) dt.m
    omega
  · simp only [addYears]
    exact Nat.min_le_right _ _


theorem addMonths_lt (dt : Date) {n₁ n₂ : Nat} (h : n₁ < n₂) :
    DateLt (addMonths dt n₁) (addMonths dt n₂) := by
  unfold addMonths DateLt
  simp only
  omega


theorem addYears_lt (dt : Date) {n₁ n₂ : Nat} (h : n₁ < n₂) :
    DateLt (addYears dt n₁) (addYears dt n₂) := by
  unfold addYears DateLt
  simp only
  omega


theorem occurrenceAt_lt_succ {r : RecurrenceRule} (hk : r.kind ≠ .noRec)
    (hi : 1 ≤ r.interval) (hb : ValidDate r.base) (k : Nat) :
    occurrenceAt r k < occurrenceAt r (k + 1) := by
  have hmul : k * r.interval < (k + 1) * r.interval :=
    Nat.mul_lt_mul_of_lt_of_le (by omega) (le_refl _) (by omega)
  cases hkind : r.kind with
  | noRec => exact absurd hkind hk
  | daily => simp only [occurrenceAt, hkind]; omega
  | weekly =>
    simp only [occurrenceAt, hkind]
    have : k * r.interval * 7 < (k + 1) * r.interval * 7 :=
      Nat.mul_lt_mul_of_lt_of_le hmul (le_refl _) (by omega)
    omega
  | monthly =>
    simp only [occurrenceAt, hkind]
    exact dateToDays_lt (addMonths_valid hb _) (addMonths_valid hb _)
      (addMonths_lt r.base hmul)
  | yearly =>
    simp only [occurrenceAt, hkind]
    exact dateToDays_lt (addYears_valid hb _) (addYears_valid hb _)
      (addYears_lt r.base hmul)


theorem occurrenceAt_mono {r : RecurrenceRule} (hk : r.kind ≠ .noRec)
    (hi : 1 ≤ r.interval) (hb : ValidDate r.base) {k₁ k₂ : Nat} (h : k₁ ≤ k₂) :
    occurrenceAt r k₁ ≤ occurrenceAt r k₂ := by
  induction k₂ with
  | zero => simp_all
  | succ n ih =>
    rcases Nat.lt_or_ge k₁ (n + 1) with hlt | hge
    · have := ih (by omega)
      have := occurrenceAt_lt_succ hk hi hb n
      omega
    · have : k₁ = n + 1 := by omega
      simp [this]


theorem le_occurrenceAt {r : RecurrenceRule} (hk : r.kind ≠ .noRec)
    (hi : 1 ≤ r.interval) (hb : ValidDate r.base) (k : Nat) :
    k ≤ occurrenceAt r k := by
  induction k with
  | zero => omega
  | succ n ih =>
    have := occurrenceAt_lt_succ hk hi hb n
    omega


theorem findLeastAbove_spec (r : RecurrenceRule) (fromTs : Nat) :
    ∀ fuel k, (∃ j, k ≤ j ∧ j < k + fuel ∧ fromTs < occurrenceAt r j) →
      fromTs < occurrenceAt r (findLeastAbove r fromTs fuel k) ∧
      k ≤ findLeastAbove r fromTs fuel k ∧
      ∀ j, k ≤ j → j < findLeastAbove r fromTs fuel k →
        ¬ fromTs < occurrenceAt r j := by
  intro fuel
  induction fuel with
  | zero =>
    intro k ⟨j, hj1, hj2, _⟩
    omega
  | succ n ih =>
    intro k ⟨j, hj1, hj2, hj3⟩
    by_cases hc : fromTs < occurrenceAt r k
    · simp only [findLeastAbove, if_pos hc]
      exact ⟨hc, le_refl _, by omega⟩
    · simp only [findLeastAbove, if_neg hc]
      have hjk : j ≠ k := by
        intro he; rw [he] at hj3; exact hc hj3
      obtain ⟨h1, h2, h3⟩ := ih (k + 1) ⟨j, by omega, by omega, hj3⟩
      refine ⟨h1, by omega, ?_⟩
      intro j' hj'1 hj'2
      rcases Nat.eq_or_lt_of_le hj'1 with he | hlt
      · rw [← he]; exact hc
      · exact h3 j' (by omega) hj'2


/-- General specification of `nextOccurrence` for recurring kinds with
no end date: it returns the least occurrence strictly after `fromTs`. -/
theorem nextOccurrence_spec (r : RecurrenceRule) (fromTs : Nat)
    (hk : r.kind ≠ .noRec) (hi : 1 ≤ r.interval) (hb : ValidDate r.base)
    (he : r.endDate = Option.none) :
    ∃ t, nextOccurrence r fromTs = some t ∧ fromTs < t ∧
      (∃ k, t = occurrenceAt r k) ∧
      ∀ k, fromTs < occurrenceAt r k → t ≤ occurrenceAt r k := by
  have hwit : ∃ j, 0 ≤ j ∧ j < 0 + (fromTs + 2) ∧ fromTs < occurrenceAt r j := by
    refine ⟨fromTs + 1, by omega, by omega, ?_⟩
    have := le_occurrenceAt hk hi hb (fromTs + 1)
    omega
  obtain ⟨h1, _, h3⟩ := findLeastAbove_spec r fromTs (fromTs + 2) 0 hwit
  set K := findLeastAbove r fromTs (fromTs + 2) 0 with hK
  have hmin : ∀ k, fromTs < occurrenceAt r k → occurrenceAt r K ≤ occurrenceAt r k := by
    intro k hkk
    rcases Nat.lt_or_ge k K with hlt | hge
    · exact absurd hkk (h3 k (by omega) hlt)
    · exact occurrenceAt_mono hk hi hb hge
  refine ⟨occurrenceAt r K, ?_, h1, ⟨K, rfl⟩, hmin⟩
  cases hkind : r.kind with
  | noRec => exact absurd hkind hk
  | daily => simp [nextOccurrence, hkind, he, ← hK]
  | weekly => simp [nextOccurrence, hkind, he, ← hK]
  | monthly => simp [nextOccurrence, hkind, he, ← hK]
  | yearly => simp [nextOccurrence, hkind, he, ← hK]


theorem nodup_map_rid_filter {l : List Entry} (p : Entry → Bool)
    (h : (l.map Entry.rid).Nodup) : ((l.filter p).map Entry.rid).Nodup :=
  h.sublist (List.Sublist.map Entry.rid (List.filter_sublist l))


theorem rid_inj {l : List Entry} (h : (l.map Entry.rid).Nodup)
    {e₁ e₂ : Entry} (h₁ : e₁ ∈ l) (h₂ : e₂ ∈ l) (he : e₁.rid = e₂.rid) :
    e₁ = e₂ :=
  List.inj_on_of_nodup_map h h₁ h₂ he


theorem map_rid_filterMap_sublist (f : Entry → Option Entry)
    (hf : ∀ e a, f e = some a → a.rid = e.rid) :
    ∀ l : List Entry, ((l.filterMap f).map Entry.rid).Sublist (l.map Entry.rid) := by
  intro l
  induction l with
  | nil => simp
  | cons e t ih =>
    cases hfe : f e with
    | none =>
      simp only [List.filterMap_cons, hfe, List.map_cons]
      exact ih.cons _
    | some a =>
      simp only [List.filterMap_cons, hfe, List.map_cons, hf e a hfe]
      exact ih.cons₂ _


theorem Inv_schedule (s : SchedState) (rid dueAt : Nat) (h : Inv s) :
    Inv (schedule s rid dueAt) := by
  obtain ⟨hnd, hact⟩ := h
  unfold schedule
  split_ifs with hs
  · constructor
    · simp only [List.map_cons, List.nodup_cons]
      refine ⟨?_, nodup_map_rid_filter _ hnd⟩
      intro hmem
      simp only [removeEntry, List.mem_map, List.mem_filter, bne_iff_ne] at hmem
      obtain ⟨e, ⟨_, hne⟩, hrid⟩ := hmem
      exact hne hrid
    · intro e he
      rcases List.mem_cons.mp he with rfl | hmem
      · exact hs
      · simp only [removeEntry, List.mem_filter] at hmem
        exact hact e hmem.1
  · exact ⟨hnd, hact⟩


theorem Inv_cancelRem (s : SchedState) (rid : Nat) (h : Inv s) :
    Inv (cancelRem s rid) := by
  obtain ⟨hnd, hact⟩ := h
  refine ⟨nodup_map_rid_filter _ hnd, ?_⟩
  intro e he
  simp only [cancelRem, removeEntry, List.mem_filter, bne_iff_ne] at he ⊢
  obtain ⟨hel, hne⟩ := he
  rw [if_neg hne]
  exact hact e hel


theorem Inv_pauseRem (s : SchedState) (rid : Nat) (h : Inv s) :
    Inv (pauseRem s rid) := by
  obtain ⟨hnd, hact⟩ := h
  refine ⟨nodup_map_rid_filter _ hnd, ?_⟩
  intro e he
  simp only [pauseRem, removeEntry, List.mem_filter, bne_iff_ne] at he ⊢
  obtain ⟨hel, hne⟩ := he
  rw [if_neg hne]
  exact hact e hel


/-- The reinsertion map used after a fire preserves the reminder id. -/
theorem reinsert_rid {s : SchedState} {e a : Entry}
    (hfa : (if (s.rules e.rid).kind = RecurrenceKind.noRec then Option.none
      else Option.map (fun t => Entry.mk e.rid t (e.gen + 1))
        (nextOccurrence (s.rules e.rid) e.dueAt)) = some a) :
    a.rid = e.rid := by
  by_cases hk : (s.rules e.rid).kind = RecurrenceKind.noRec
  · rw [if_pos hk] at hfa
    exact absurd hfa (by simp)
  · rw [if_neg hk] at hfa
    cases hno : nextOccurrence (s.rules e.rid) e.dueAt with
    | none => rw [hno] at hfa; exact absurd hfa (by simp)
    | some t =>
      rw [hno] at hfa
      have h2 : some (Entry.mk e.rid t (e.gen + 1)) = some a := hfa
      rw [← Option.some.inj h2]


theorem Inv_cycle (s : SchedState) (now : Nat) (h : Inv s) :
    Inv (cycle s now).2 := by
  obtain ⟨hnd, hact⟩ := h
  unfold Inv cycle poll reinsertAfterFire
  dsimp only
  constructor
  · -- distinct reminder ids in the new index
    rw [List.map_append, List.nodup_append]
    refine ⟨nodup_map_rid_filter _ hnd, ?_, ?_⟩
    · exact (nodup_map_rid_filter (fun e => decide (e.dueAt ≤ now)) hnd).sublist
        (map_rid_filterMap_sublist _ (fun e a hfa => reinsert_rid hfa) _)
    · -- ids of remaining entries and reinserted entries are disjoint
      intro x hx hx'
      simp only [List.mem_map, List.mem_filter, decide_eq_true_eq] at hx
      obtain ⟨e₁, ⟨he₁, hd₁⟩, hx₁⟩ := hx
      simp only [List.mem_map] at hx'
      obtain ⟨a, ha, hxa⟩ := hx'
      rcases List.mem_filterMap.mp ha with ⟨e₂, he₂, hfa⟩
      have hrid := reinsert_rid hfa
      simp only [dueEntries, List.mem_filter, decide_eq_true_eq] at he₂
      obtain ⟨he₂, hd₂⟩ := he₂
      have heq : e₁ = e₂ := rid_inj hnd he₁ he₂ (by omega)
      rw [heq] at hd₁
      omega
  · intro e he
    rcases List.mem_append.mp he with hmid | hre
    · simp only [List.mem_filter, decide_eq_true_eq] at hmid
      obtain ⟨hel, hgt⟩ := hmid
      have hany : ((dueEntries s now).any fun e' => e'.rid == e.rid) = false := by
        apply List.any_eq_false.mpr
        intro e' he'
        simp only [dueEntries, List.mem_filter, decide_eq_true_eq] at he'
        obtain ⟨he'l, hle⟩ := he'
        intro hEq
        have heq : e' = e := rid_inj hnd he'l hel (eq_of_beq hEq)
        rw [heq] at hle
        omega
      rw [if_neg]
      · exact hact e hel
      · simp [hany]
    · rcases List.mem_filterMap.mp hre with ⟨e₂, he₂, hfa⟩
      have hrid := reinsert_rid hfa
      have hk : (s.rules e₂.rid).kind ≠ RecurrenceKind.noRec := by
        intro hkk
        rw [if_pos hkk] at hfa
        simp at hfa
      simp only [dueEntries, List.mem_filter, decide_eq_true_eq] at he₂
      rw [hrid, if_neg]
      · exact hact e₂ he₂.1
      · intro hc
        rw [Bool.and_eq_true, decide_eq_true_eq] at hc
        exact hk hc.2


theorem nonactive_applyOp (s : SchedState) (rid : Nat) (op : SchedOp)
    (h : s.status rid ≠ RStatus.active) :
    (applyOp s op).status rid ≠ RStatus.active := by
  cases op with
  | schedule r d =>
    simp only [applyOp, schedule]
    split_ifs <;> exact h
  | cancel r =>
    simp only [applyOp, cancelRem]
    split_ifs
    · decide
    · exact h
  | pause r =>
    simp only [applyOp, pauseRem]
    split_ifs
    · decide
    · exact h
  | tick now =>
    simp only [applyOp, cycle, poll, reinsertAfterFire]
    split_ifs
    · decide
    · exact h


theorem nonactive_run (s : SchedState) (rid : Nat) (ops : List SchedOp)
    (h : s.status rid ≠ RStatus.active) :
    (run s ops).status rid ≠ RStatus.active := by
  induction ops generalizing s with
  | nil => exact h
  | cons op t ih => exact ih (applyOp s op) (nonactive_applyOp s rid op h)


theorem Inv_applyOp (s : SchedState) (op : SchedOp) (h : Inv s) :
    Inv (applyOp s op) := by
  cases op with
  | schedule r d => exact Inv_schedule s r d h
  | cancel r => exact Inv_cancelRem s r h
  | pause r => exact Inv_pauseRem s r h
  | tick now => exact Inv_cycle s now h


theorem Inv_run (s : SchedState) (ops : List SchedOp) (h : Inv s) :
    Inv (run s ops) := by
  induction ops generalizing s with
  | nil => exact h
  | cons op t ih => exact ih (applyOp s op) (Inv_applyOp s op h)


/-- Poll results are drawn from the index. -/
theorem cycle_fst_sub_index (s : SchedState) (now : Nat) {rid : Nat}
    (h : rid ∈ (cycle s now).1) : rid ∈ s.index.map Entry.rid := by
  simp only [cycle, poll, dueEntries, List.mem_map, List.mem_filter,
    decide_eq_true_eq] at h
  obtain ⟨e, ⟨hel, _⟩, hrid⟩ := h
  exact List.mem_map.mpr ⟨e, hel, hrid⟩


/-- A non-active reminder is never among poll results. -/
theorem nonactive_notin_cycle (s : SchedState) (now : Nat) (rid : Nat)
    (hInv : Inv s) (h : s.status rid ≠ RStatus.active) :
    rid ∉ (cycle s now).1 := by
  intro hmem
  have := cycle_fst_sub_index s now hmem
  rcases List.mem_map.mp this with ⟨e, hel, hrid⟩
  exact h (hrid ▸ hInv.2 e hel)


theorem genOf_eq {l : List Entry} (h : (l.map Entry.rid).Nodup)
    {e : Entry} (he : e ∈ l) : genOf l e.rid = e.gen := by
  induction l with
  | nil => simp at he
  | cons a t ih =>
    simp only [List.map_cons, List.nodup_cons] at h
    obtain ⟨ha, ht⟩ := h
    rcases List.mem_cons.mp he with rfl | hmem
    · simp [genOf, List.find?]
    · have hne : (a.rid == e.rid) = false := by
        apply beq_eq_false_iff_ne.mpr
        intro hEq
        exact ha (hEq ▸ List.mem_map_of_mem Entry.rid hmem)
      simp only [genOf, List.find?, hne]
      exact ih ht hmem


/-- Rescheduling an indexed reminder strictly increases its stored
generation counter. -/
theorem schedule_gen_bump (s : SchedState) (h : Inv s) {e : Entry}
    (he : e ∈ s.index) (dueAt : Nat) {e' : Entry}
    (he' : e' ∈ (schedule s e.rid dueAt).index) (hr : e'.rid = e.rid) :
    e.gen < e'.gen := by
  have hs : s.status e.rid = RStatus.active := h.2 e he
  simp only [schedule, if_pos hs] at he'
  rcases List.mem_cons.mp he' with rfl | hmem
  · simp only [genOf_eq h.1 he]
    omega
  · simp only [removeEntry, List.mem_filter, bne_iff_ne] at hmem
    exact absurd hr hmem.2


theorem retryLoop_status_ne_pending (send : Nat → SendResult) :
    ∀ n i, (retryLoop send n i).1 ≠ DStatus.pending := by
  intro n
  induction n with
  | zero => intro i; simp [retryLoop]
  | succ m ih =>
    intro i
    simp only [retryLoop]
    cases send i <;> simp_all


theorem retryLoop_failed_alerts (send : Nat → SendResult) :
    ∀ n i, (retryLoop send n i).1 = DStatus.failed → (retryLoop send n i).2.2 = 1 := by
  intro n
  induction n with
  | zero => intro i _; simp [retryLoop]
  | succ m ih =>
    intro i
    simp only [retryLoop]
    cases send i <;> simp_all


theorem retryLoop_attempts_le (send : Nat → SendResult) :
    ∀ n i, (retryLoop send n i).2.1 ≤ i + n := by
  intro n
  induction n with
  | zero => intro i; simp [retryLoop]
  | succ m ih =>
    intro i
    simp only [retryLoop]
    cases send i <;> simp_all
    have := ih (i + 1)
    omega


theorem TInv_recordAttempt (st : List TrackEntry) (nid cid : Nat)
    (outcome : DStatus) (t : Nat) (h : TInv st) :
    TInv (recordAttempt st nid cid outcome t) := by
  unfold TInv recordAttempt at *
  cases hl : lookupRec st nid cid with
  | some r =>
    dsimp only
    have hmap : (st.map (fun te =>
        if te.nid == nid && te.cid == cid
        then { te with record := ⟨outcome, r.attempts + 1, t⟩ } else te)).map keyOf
        = st.map keyOf := by
      rw [List.map_map]
      apply List.map_congr_left
      intro te _
      by_cases hc : (te.nid == nid && te.cid == cid) = true
      · simp only [Function.comp_apply, if_pos hc]
        rfl
      · simp only [Function.comp_apply, if_neg hc]
    rw [hmap]
    exact h
  | none =>
    dsimp only
    simp only [List.map_cons, List.nodup_cons]
    refine ⟨?_, h⟩
    intro hmem
    rcases List.mem_map.mp hmem with ⟨te, hte, hkey⟩
    have hn : st.find? (fun te => te.nid == nid && te.cid == cid) = Option.none := by
      cases hf : st.find? (fun te => te.nid == nid && te.cid == cid) with
      | some x => rw [lookupRec, hf] at hl; simp at hl
      | none => rfl
    have hfind := List.find?_eq_none.mp hn te hte
    apply hfind
    simp only [keyOf, Prod.mk.injEq] at hkey
    simp [hkey.1, hkey.2]


theorem keyCount_le_one (st : List TrackEntry) (nid cid : Nat) (h : TInv st) :
    keyCount st nid cid ≤ 1 := by
  unfold TInv at h
  unfold keyCount
  induction st with
  | nil => simp
  | cons te rest ih =>
    simp only [List.map_cons, List.nodup_cons] at h
    obtain ⟨hhd, htl⟩ := h
    by_cases hc : (te.nid == nid && te.cid == cid) = true
    · have hnone : rest.filter (fun te' => te'.nid == nid && te'.cid == cid) = [] := by
        apply List.filter_eq_nil_iff.mpr
        intro te' hte' hc'
        apply hhd
        rw [Bool.and_eq_true, beq_iff_eq, beq_iff_eq] at hc hc'
        have hk : keyOf te' = keyOf te := by
          simp [keyOf, hc.1, hc.2, hc'.1, hc'.2]
        rw [← hk]
        exact List.mem_map_of_mem keyOf hte'
      rw [List.filter_cons, if_pos hc, hnone]
      simp
    · rw [List.filter_cons, if_neg hc]
      exact ih htl


theorem findLeastDue_spec (r : RecurrenceRule) (now : Nat) :
    ∀ fuel k, (∃ j, k ≤ j ∧ j < k + fuel ∧ now ≤ occurrenceAt r j) →
      now ≤ occurrenceAt r (findLeastDue r now fuel k) ∧
      k ≤ findLeastDue r now fuel k ∧
      ∀ j, k ≤ j → j < findLeastDue r now fuel k →
        ¬ now ≤ occurrenceAt r j := by
  intro fuel
  induction fuel with
  | zero =>
    intro k ⟨j, hj1, hj2, _⟩
    omega
  | succ n ih =>
    intro k ⟨j, hj1, hj2, hj3⟩
    by_cases hc : now ≤ occurrenceAt r k
    · simp only [findLeastDue, if_pos hc]
      exact ⟨hc, le_refl _, by omega⟩
    · simp only [findLeastDue, if_neg hc]
      have hjk : j ≠ k := by
        intro he; rw [he] at hj3; exact hc hj3
      obtain ⟨h1, h2, h3⟩ := ih (k + 1) ⟨j, by omega, by omega, hj3⟩
      refine ⟨h1, by omega, ?_⟩
      intro j' hj'1 hj'2
      rcases Nat.eq_or_lt_of_le hj'1 with he | hlt
      · rw [← he]; exact hc
      · exact h3 j' (by omega) hj'2


/-- `initialNextDue` is the least occurrence at or after `now`. -/
theorem initialNextDue_spec (r : RecurrenceRule) (now : Nat)
    (hk : r.kind ≠ RecurrenceKind.noRec) (hi : 1 ≤ r.interval)
    (hb : ValidDate r.base) :
    now ≤ initialNextDue r now ∧
    (∃ k, initialNextDue r now = occurrenceAt r k) ∧
    ∀ k, now ≤ occurrenceAt r k → initialNextDue r now ≤ occurrenceAt r k := by
  have hwit : ∃ j, 0 ≤ j ∧ j < 0 + (now + 1) ∧ now ≤ occurrenceAt r j := by
    refine ⟨now, by omega, by omega, ?_⟩
    exact le_occurrenceAt hk hi hb now
  obtain ⟨h1, _, h3⟩ := findLeastDue_spec r now (now + 1) 0 hwit
  set K := findLeastDue r now (now + 1) 0 with hK
  refine ⟨h1, ⟨K, rfl⟩, ?_⟩
  intro k hkk
  rcases Nat.lt_or_ge k K with hlt | hge
  · exact absurd hkk (h3 k (by omega) hlt)
  · exact occurrenceAt_mono hk hi hb hge


/-- A validation-passing request yields a parseable recurrence. -/
theorem validateReq_none_parse (req : CreateReminderReq)
    (h : validateReq req = Option.none) :
    ∃ k, parseRecurrence req.recurrence = some k := by
  unfold validateReq at h
  split_ifs at h
  cases hp : parseRecurrence req.recurrence with
  | some k => exact ⟨k, rfl⟩
  | none => rw [hp] at h; simp at h


theorem infix_append_left {α : Type} {l t : List α} (s : List α)
    (h : l <:+: t) : l <:+: s ++ t := by
  obtain ⟨u, v, huv⟩ := h
  exact ⟨s ++ u, v, by rw [← huv]; simp [List.append_assoc]⟩


theorem dropWhile_append_of_head {p : List Char} (hp : lbrace ∉ p)
    (rest : List Char) :
    (p ++ lbrace :: rest).dropWhile (fun c => c != lbrace) = lbrace :: rest := by
  induction p with
  | nil => simp [List.dropWhile]
  | cons a p' ih =>
    have ha : a ≠ lbrace := by
      intro hEq; exact hp (hEq ▸ List.mem_cons_self a p')
    simp only [List.cons_append, List.dropWhile]
    rw [show (a != lbrace) = true from bne_iff_ne.mpr ha]
    exact ih (fun hm => hp (List.mem_cons_of_mem a hm))


theorem bodyContent_append {p : List Char} (hp : lbrace ∉ p)
    (rest : List Char) :
    bodyContent (p ++ lbrace :: rest) = lbrace :: rest := by
  unfold bodyContent
  rw [if_pos (List.mem_append.mpr (Or.inr (List.mem_cons_self lbrace rest)))]
  exact dropWhile_append_of_head hp rest


/-! ### Claim theorems -/

/-- C1: for every recurrence rule with kind daily, weekly, monthly or
yearly (positive interval, valid base date, no end date) and every
fromTimestamp, nextOccurrence returns the smallest timestamp strictly
greater than the fromTimestamp among the rule's occurrences
base + k * interval * unit (k ≥ 0, day-of-month clamped to the target
month's last day for monthly/yearly); in particular a weekly rule
based on 2024-01-01 with interval 1 yields 2024-01-08 from that base,
and a monthly rule based on Jan 31 with interval 1 yields Feb 28 in a
non-leap year and Feb 29 in a leap year. -/
theorem c1_nextOccurrence_least :
    (∀ (r : RecurrenceRule) (fromTs : Nat),
        r.kind ≠ RecurrenceKind.noRec → 1 ≤ r.interval → ValidDate r.base →
        r.endDate = Option.none →
        ∃ t, nextOccurrence r fromTs = some t ∧ fromTs < t ∧
          (∃ k, t = occurrenceAt r k) ∧
          ∀ k, fromTs < occurrenceAt r k → t ≤ occurrenceAt r k) ∧
    nextOccurrence ⟨RecurrenceKind.weekly, 1, ⟨2024, 1, 1⟩, Option.none⟩
        (dateToDays ⟨2024, 1, 1⟩) = some (dateToDays ⟨2024, 1, 8⟩) ∧
    nextOccurrence ⟨RecurrenceKind.monthly, 1, ⟨2023, 1, 31⟩, Option.none⟩
        (dateToDays ⟨2023, 1, 31⟩) = some (dateToDays ⟨2023, 2, 28⟩) ∧
    nextOccurrence ⟨RecurrenceKind.monthly, 1, ⟨2024, 1, 31⟩, Option.none⟩
        (dateToDays ⟨2024, 1, 31⟩) = some (dateToDays ⟨2024, 2, 29⟩) :=
  ⟨fun r fromTs hk hi hb he => nextOccurrence_spec r fromTs hk hi hb he,
   by decide, by decide, by decide⟩


/-- Witness for C1: the general minimality statement at a concrete
daily rule and timestamp. -/
theorem c1_nextOccurrence_least_witness :
    ∃ t, nextOccurrence ⟨RecurrenceKind.daily, 2, ⟨2024, 3, 10⟩, Option.none⟩ 5
        = some t ∧ 5 < t ∧
      (∃ k, t = occurrenceAt ⟨RecurrenceKind.daily, 2, ⟨2024, 3, 10⟩, Option.none⟩ k) ∧
      ∀ k, 5 < occurrenceAt ⟨RecurrenceKind.daily, 2, ⟨2024, 3, 10⟩, Option.none⟩ k →
        t ≤ occurrenceAt ⟨RecurrenceKind.daily, 2, ⟨2024, 3, 10⟩, Option.none⟩ k :=
  c1_nextOccurrence_least.1 ⟨RecurrenceKind.daily, 2, ⟨2024, 3, 10⟩, Option.none⟩ 5
    (by decide) (by decide) (by decide) rfl


/-- C2: for recurring kinds with interval ≥ 1 (valid base, no end
date), nextOccurrence is strictly increasing — its result is strictly
above the input and iterating it from its own result yields a strictly
larger timestamp — and it is a pure deterministic function, so
repeated calls with the same rule and timestamp return the same
result. -/
theorem c2_nextOccurrence_strict_increasing :
    (∀ (r : RecurrenceRule) (fromTs t : Nat),
        r.kind ≠ RecurrenceKind.noRec → 1 ≤ r.interval → ValidDate r.base →
        r.endDate = Option.none →
        nextOccurrence r fromTs = some t →
        fromTs < t ∧ ∃ t', nextOccurrence r t = some t' ∧ t < t') ∧
    (∀ (r : RecurrenceRule) (fromTs : Nat),
        nextOccurrence r fromTs = nextOccurrence r fromTs) := by
  constructor
  · intro r fromTs t hk hi hb he hEq
    obtain ⟨t0, h0, hlt0, _, _⟩ := nextOccurrence_spec r fromTs hk hi hb he
    rw [hEq] at h0
    have ht := Option.some.inj h0
    subst ht
    refine ⟨hlt0, ?_⟩
    obtain ⟨t', h', hlt', _, _⟩ := nextOccurrence_spec r t hk hi hb he
    exact ⟨t', h', hlt'⟩
  · intro r fromTs
    rfl


/-- Witness for C2: a concrete daily rule iterated from timestamp 0. -/
theorem c2_nextOccurrence_strict_increasing_witness :
    (0 : Nat) < 1 ∧
    ∃ t', nextOccurrence ⟨RecurrenceKind.daily, 1, ⟨0, 1, 1⟩, Option.none⟩ 1
        = some t' ∧ 1 < t' :=
  c2_nextOccurrence_strict_increasing.1
    ⟨RecurrenceKind.daily, 1, ⟨0, 1, 1⟩, Option.none⟩ 0 1
    (by decide) (by decide) (by decide) rfl rfl


/-- C3: a reminder whose rule has kind none fires at most once — when
it appears in a poll cycle's results its status becomes cancelled and
it never appears in any later poll result under any sequence of
scheduler operations; more generally every scheduler operation
preserves the invariant that cancelled or paused (non-active)
reminders are never present in the scheduler index. -/
theorem c3_none_fires_once :
    (∀ (s : SchedState) (op : SchedOp), Inv s → Inv (applyOp s op)) ∧
    (∀ (s : SchedState) (rid : Nat), Inv s →
        s.status rid ≠ RStatus.active → rid ∉ s.index.map Entry.rid) ∧
    (∀ (s : SchedState) (now rid : Nat), Inv s →
        (s.rules rid).kind = RecurrenceKind.noRec →
        rid ∈ (cycle s now).1 →
        (cycle s now).2.status rid = RStatus.cancelled ∧
        ∀ (ops : List SchedOp) (now' : Nat),
          rid ∉ (cycle (run (cycle s now).2 ops) now').1) := by
  refine ⟨fun s op h => Inv_applyOp s op h, ?_, ?_⟩
  · intro s rid hInv hna hmem
    rcases List.mem_map.mp hmem with ⟨e, hel, hrid⟩
    exact hna (hrid ▸ hInv.2 e hel)
  · intro s now rid hInv hkind hmem
    have hany : ((dueEntries s now).any fun e => e.rid == rid) = true := by
      simp only [cycle, poll] at hmem
      rcases List.mem_map.mp hmem with ⟨e, hel, hrid⟩
      exact List.any_eq_true.mpr ⟨e, hel, by simp [hrid]⟩
    have hstat : (cycle s now).2.status rid = RStatus.cancelled := by
      simp only [cycle, poll, reinsertAfterFire]
      rw [if_pos]
      rw [hany, decide_eq_true hkind]
      rfl
    refine ⟨hstat, ?_⟩
    intro ops now'
    have hna : (cycle s now).2.status rid ≠ RStatus.active := by
      rw [hstat]; decide
    exact nonactive_notin_cycle (run (cycle s now).2 ops) now' rid
      (Inv_run (cycle s now).2 ops (Inv_cycle s now hInv))
      (nonactive_run (cycle s now).2 rid ops hna)


/-- Witness for C3: after firing at tick 5 the reminder is cancelled
and absent from a later poll. -/
theorem c3_none_fires_once_witness :
    (cycle witState3 5).2.status 1 = RStatus.cancelled ∧
    1 ∉ (cycle (run (cycle witState3 5).2 []) 7).1 :=
  ⟨(c3_none_fires_once.2.2 witState3 5 1 (by decide) rfl (by decide)).1,
   (c3_none_fires_once.2.2 witState3 5 1 (by decide) rfl (by decide)).2 [] 7⟩


/-- C4: poll(now) returns exactly the reminder ids of index entries
with dueAt ≤ now and removes them from the index — a polled id is
absent from the mid-cycle index, so a reminder is never due in the
index while its previous fire is being processed — and only after the
Dispatcher has consumed the firing is each recurring fired entry
reinserted, with the engine-computed next occurrence and a bumped
generation. -/
theorem c4_poll_exact (s : SchedState) (now : Nat) (hInv : Inv s) :
    (∀ rid, rid ∈ (poll s now).1 ↔ ∃ e ∈ s.index, e.rid = rid ∧ e.dueAt ≤ now) ∧
    (poll s now).2.index = s.index.filter (fun e => decide (now < e.dueAt)) ∧
    (∀ rid, rid ∈ (poll s now).1 → rid ∉ (poll s now).2.index.map Entry.rid) ∧
    (∀ e, e ∈ dueEntries s now → (s.rules e.rid).kind ≠ RecurrenceKind.noRec →
      ∀ t, nextOccurrence (s.rules e.rid) e.dueAt = some t →
      ∃ e', e' ∈ (cycle s now).2.index ∧ e'.rid = e.rid ∧ e'.dueAt = t ∧
        e'.gen = e.gen + 1) := by
  refine ⟨?_, rfl, ?_, ?_⟩
  · intro rid
    simp only [poll, dueEntries, List.mem_map, List.mem_filter, decide_eq_true_eq]
    constructor
    · rintro ⟨e, ⟨he, hd⟩, hr⟩
      exact ⟨e, he, hr, hd⟩
    · rintro ⟨e, he, hr, hd⟩
      exact ⟨e, ⟨he, hd⟩, hr⟩
  · intro rid h1 h2
    simp only [poll, dueEntries, List.mem_map, List.mem_filter,
      decide_eq_true_eq] at h1 h2
    obtain ⟨e, ⟨he, hd⟩, hr⟩ := h1
    obtain ⟨e', ⟨he', hd'⟩, hr'⟩ := h2
    have heq : e = e' := rid_inj hInv.1 he he' (by rw [hr, hr'])
    rw [heq] at hd
    omega
  · intro e he hk t ht
    refine ⟨⟨e.rid, t, e.gen + 1⟩, ?_, rfl, rfl, rfl⟩
    simp only [cycle, reinsertAfterFire, poll]
    apply List.mem_append.mpr
    right
    apply List.mem_filterMap.mpr
    refine ⟨e, he, ?_⟩
    rw [if_neg hk, ht]
    rfl


/-- Witness for C4: the poll characterization and the reinsertion of
the recurring entry at the engine-computed next occurrence. -/
theorem c4_poll_exact_witness :
    (1 ∈ (poll witState4 5).1 ↔
      ∃ e ∈ witState4.index, e.rid = 1 ∧ e.dueAt ≤ 5) ∧
    ∃ e', e' ∈ (cycle witState4 5).2.index ∧ e'.rid = 1 ∧ e'.dueAt = 4 ∧
      e'.gen = 1 :=
  ⟨(c4_poll_exact witState4 5 (by decide)).1 1,
   (c4_poll_exact witState4 5 (by decide)).2.2.2 ⟨1, 3, 0⟩ (by decide)
     (by decide) 4 rfl⟩


/-- C5: rescheduling an indexed reminder strictly increases its stored
generation counter; a fire event embeds the generation of the entry it
was drawn from; and the Dispatcher never acts on a fire whose embedded
generation is behind the stored one — such a stale fire is discarded
(never dispatched), logged for observability, and not user-visible. -/
theorem c5_generation_guard :
    (∀ (s : SchedState), Inv s → ∀ e ∈ s.index, ∀ (dueAt : Nat) (e' : Entry),
        e' ∈ (schedule s e.rid dueAt).index → e'.rid = e.rid → e.gen < e'.gen) ∧
    (∀ e : Entry, (fireEventOf e).gen = e.gen ∧ (fireEventOf e).rid = e.rid) ∧
    (∀ (storedGen : Nat) (f : FireEvent), f.gen < storedGen →
        checkFire storedGen f = FireOutcome.staleDropped f.rid ∧
        (∀ rid, checkFire storedGen f ≠ FireOutcome.dispatched rid) ∧
        userVisible (checkFire storedGen f) = false ∧
        loggedForObservability (checkFire storedGen f) = true) := by
  refine ⟨?_, fun e => ⟨rfl, rfl⟩, ?_⟩
  · intro s hInv e he dueAt e' he' hr
    exact schedule_gen_bump s hInv he dueAt he' hr
  · intro g f hlt
    have hc : checkFire g f = FireOutcome.staleDropped f.rid := by
      unfold checkFire
      rw [if_pos hlt]
    refine ⟨hc, ?_, by rw [hc]; rfl, rfl⟩
    intro rid hEq
    rw [hc] at hEq
    exact FireOutcome.noConfusion hEq


/-- Witness for C5: a concrete reschedule bumps generation 4 to 5, and
a stale fire with embedded generation 3 against stored generation 7 is
dropped. -/
theorem c5_generation_guard_witness :
    (4 : Nat) < 5 ∧ checkFire 7 ⟨2, 3⟩ = FireOutcome.staleDropped 2 :=
  ⟨c5_generation_guard.1 witState5 (by decide) ⟨2, 9, 4⟩ (by decide) 20
     ⟨2, 20, 5⟩ (by decide) rfl,
   (c5_generation_guard.2.2 7 ⟨2, 3⟩ (by decide)).1⟩


/-- C6: a transiently failing send is retried up to the bounded cap of
5 attempts with exponential backoff (delay 2 ^ i seconds before retry
i, base 1s, factor 2); after 5 consecutive transient failures the
DeliveryRecord is failed permanently with exactly one alert raised to
the alerting/audit collaborator; a delivery never ends pending past
the retry bound and a failure is never silently dropped (every failed
outcome raises exactly one alert). -/
theorem c6_retry_bound_alert :
    maxAttempts = 5 ∧
    (∀ i, backoffDelay i = 2 ^ i) ∧
    (∀ (send : Nat → SendResult) (t : Nat),
        (∀ i, i < 5 → send i = SendResult.transientErr) →
        (deliverWithRetry send t).1.status = DStatus.failed ∧
        (deliverWithRetry send t).1.attempts = 5 ∧
        (deliverWithRetry send t).2 = 1) ∧
    (∀ (send : Nat → SendResult) (t : Nat),
        (deliverWithRetry send t).1.status ≠ DStatus.pending) ∧
    (∀ (send : Nat → SendResult) (t : Nat),
        (deliverWithRetry send t).1.attempts ≤ 5) ∧
    (∀ (send : Nat → SendResult) (t : Nat),
        (deliverWithRetry send t).1.status = DStatus.failed →
        (deliverWithRetry send t).2 = 1) := by
  refine ⟨rfl, fun i => by simp [backoffDelay], ?_, ?_, ?_, ?_⟩
  · intro send t h
    have h0 := h 0 (by omega)
    have h1 := h 1 (by omega)
    have h2 := h 2 (by omega)
    have h3 := h 3 (by omega)
    have h4 := h 4 (by omega)
    refine ⟨?_, ?_, ?_⟩ <;>
      simp [deliverWithRetry, maxAttempts, retryLoop, h0, h1, h2, h3, h4]
  · intro send t
    exact retryLoop_status_ne_pending send maxAttempts 0
  · intro send t
    have := retryLoop_attempts_le send maxAttempts 0
    simpa [deliverWithRetry, maxAttempts] using this
  · intro send t h
    exact retryLoop_failed_alerts send maxAttempts 0 h


/-- Witness for C6: a channel that fails transiently on every attempt
ends failed after 5 attempts with exactly one alert. -/
theorem c6_retry_bound_alert_witness :
    (deliverWithRetry (fun _ => SendResult.transientErr) 0).1.status
        = DStatus.failed ∧
    (deliverWithRetry (fun _ => SendResult.transientErr) 0).1.attempts = 5 ∧
    (deliverWithRetry (fun _ => SendResult.transientErr) 0).2 = 1 :=
  c6_retry_bound_alert.2.2.1 (fun _ => SendResult.transientErr) 0
    (fun _ _ => rfl)


/-- C7: recordAttempt never creates a second DeliveryRecord for the
same (notification, channel) pair — key uniqueness is preserved and at
most one record exists per pair — and the Dispatcher's retry path
performs zero sends and leaves the store unchanged when the pair's
record is already delivered. -/
theorem c7_idempotent_delivery :
    (∀ st nid cid outcome t, TInv st →
        TInv (recordAttempt st nid cid outcome t)) ∧
    (∀ st nid cid, TInv st → keyCount st nid cid ≤ 1) ∧
    (∀ st nid cid t r, lookupRec st nid cid = some r →
        r.status = DStatus.delivered → retrySend st nid cid t = (st, 0)) := by
  refine ⟨fun st n c o t h => TInv_recordAttempt st n c o t h,
          fun st n c h => keyCount_le_one st n c h, ?_⟩
  intro st nid cid t r hl hs
  have hd : isAlreadyDelivered st nid cid = true := by
    unfold isAlreadyDelivered
    rw [hl]
    simp [hs]
  unfold retrySend
  rw [if_pos hd]


/-- Witness for C7: recording again keeps a single record, and the
retry path performs zero sends on the delivered pair. -/
theorem c7_idempotent_delivery_witness :
    TInv (recordAttempt witStore7 1 2 DStatus.delivered 9) ∧
    keyCount witStore7 1 2 ≤ 1 ∧
    retrySend witStore7 1 2 9 = (witStore7, 0) :=
  ⟨c7_idempotent_delivery.1 witStore7 1 2 DStatus.delivered 9 (by decide),
   c7_idempotent_delivery.2.1 witStore7 1 2 (by decide),
   c7_idempotent_delivery.2.2 witStore7 1 2 9 ⟨DStatus.delivered, 1, 0⟩ rfl rfl⟩


/-- C8: on the stream-a interface the client's open handshake sends
connection_init and then a subscribe (start) message carrying the
userId; every delivered notification payload carries exactly the
fields id, message, type (the subscription's selection set); and
keep-alive ('ka') frames are ignored by the consumer — neither treated
as notifications nor as errors. -/
theorem c8_stream_a_protocol :
    (∀ sid uid, onOpenMessages sid uid =
        [ClientMsg.connectionInit, ClientMsg.start sid uid]) ∧
    deliveredNotificationFields = payloadFieldNames ∧
    deliveredNotificationFields = ["id", "message", "type"] ∧
    clientHandle GqlMsg.ka = ClientAction.ignored ∧
    (∀ p, clientHandle GqlMsg.ka ≠ ClientAction.receivedNotification p) ∧
    clientHandle GqlMsg.ka ≠ ClientAction.errorLogged := by
  refine ⟨fun sid uid => rfl, rfl, rfl, rfl, ?_, ?_⟩
  · intro p hEq
    exact ClientAction.noConfusion hEq
  · intro hEq
    exact ClientAction.noConfusion hEq


/-- Witness for C8: the concrete open sequence for one user, and the
keep-alive frame not being a notification. -/
theorem c8_stream_a_protocol_witness :
    onOpenMessages "sub1" "user_1_0" =
      [ClientMsg.connectionInit, ClientMsg.start "sub1" "user_1_0"] ∧
    clientHandle GqlMsg.ka ≠ ClientAction.receivedNotification ⟨1, "m", "t"⟩ :=
  ⟨c8_stream_a_protocol.1 "sub1" "user_1_0",
   c8_stream_a_protocol.2.2.2.2.1 ⟨1, "m", "t"⟩⟩


/-- C9: reminder creation accepts userId, title, category, date and
recurrence, validates the recurrence rule's well-formedness, and
returns either a created Reminder carrying the fresh id and the
computed initial next-due timestamp (the least occurrence at or after
now; HTTP 201 at the API layer) or the validation error surfaced
synchronously (HTTP 400); validation errors are never retried and
delivery errors never propagate to this caller. -/
theorem c9_creation_validation :
    (∀ req freshId now, validateReq req = Option.none →
        ∃ rem, createReminder req freshId now = Except.ok rem ∧
          rem.id = freshId ∧ rem.status = RStatus.active ∧
          httpStatusOf (createReminder req freshId now) = 201 ∧
          ∃ k, parseRecurrence req.recurrence = some k ∧
            rem.rule = ⟨k, 1, req.date, Option.none⟩ ∧
            rem.nextDue = initialNextDue ⟨k, 1, req.date, Option.none⟩ now) ∧
    (∀ (r : RecurrenceRule) (now : Nat),
        r.kind ≠ RecurrenceKind.noRec → 1 ≤ r.interval → ValidDate r.base →
        now ≤ initialNextDue r now ∧
        (∃ k, initialNextDue r now = occurrenceAt r k) ∧
        ∀ k, now ≤ occurrenceAt r k → initialNextDue r now ≤ occurrenceAt r k) ∧
    (∀ req freshId now e, createReminder req freshId now = Except.error e →
        validateReq req = some e ∧
        httpStatusOf (createReminder req freshId now) = 400) ∧
    isRetried ErrClass.validation = false ∧
    propagatesToCreationCaller ErrClass.transientDelivery = false ∧
    propagatesToCreationCaller ErrClass.permanentDelivery = false := by
  refine ⟨?_, ?_, ?_, rfl, rfl, rfl⟩
  · intro req freshId now h
    obtain ⟨k, hk⟩ := validateReq_none_parse req h
    exact ⟨{ id := freshId, userId := req.userId, title := req.title,
             category := req.category, base := req.date,
             rule := ⟨k, 1, req.date, Option.none⟩,
             nextDue := initialNextDue ⟨k, 1, req.date, Option.none⟩ now,
             status := RStatus.active },
           by simp [createReminder, h, hk], rfl, rfl,
           by simp [createReminder, httpStatusOf, h, hk], k, hk, rfl, rfl⟩
  · intro r now hk hi hb
    exact initialNextDue_spec r now hk hi hb
  · intro req freshId now e hEq
    cases hv : validateReq req with
    | some e' =>
      have hc : createReminder req freshId now = Except.error e' := by
        simp [createReminder, hv]
      rw [hc] at hEq
      have he' := Except.error.inj hEq
      subst he'
      exact ⟨rfl, by rw [hc]; rfl⟩
    | none =>
      obtain ⟨k, hk⟩ := validateReq_none_parse req hv
      have hc : createReminder req freshId now = Except.ok
          { id := freshId, userId := req.userId, title := req.title,
            category := req.category, base := req.date,
            rule := ⟨k, 1, req.date, Option.none⟩,
            nextDue := initialNextDue ⟨k, 1, req.date, Option.none⟩ now,
            status := RStatus.active } := by
        simp [createReminder, hv, hk]
      rw [hc] at hEq
      exact Except.noConfusion hEq


/-- Witness for C9: the concrete valid request creates a 201 reminder
with the fresh id and computed next-due timestamp. -/
theorem c9_creation_validation_witness :
    ∃ rem, createReminder witReq9 42 5 = Except.ok rem ∧
      rem.id = 42 ∧ rem.status = RStatus.active ∧
      httpStatusOf (createReminder witReq9 42 5) = 201 ∧
      ∃ k, parseRecurrence witReq9.recurrence = some k ∧
        rem.rule = ⟨k, 1, witReq9.date, Option.none⟩ ∧
        rem.nextDue = initialNextDue ⟨k, 1, witReq9.date, Option.none⟩ 5 :=
  c9_creation_validation.1 witReq9 42 5 (by decide)


/-- C10: the Socket.io polling handshake decoder of the load-test
client is total over arbitrary prefixed bodies: with no sid marker the
sid is left empty; when the JSON part fails to parse the sid is left
empty and the WebSocket upgrade is skipped rather than crashing; and
for any prefix without a brace the decoder extracts the sid by parsing
the substring starting at the first brace. -/
theorem c10_sid_decoder_total :
    (∀ body : List Char, ¬ sidMarker <:+: body → extractSid body = []) ∧
    (∀ body : List Char, parseJson (bodyContent body) = Option.none →
        extractSid body = [] ∧ shouldUpgrade body = false) ∧
    (∀ p : List Char, lbrace ∉ p →
        extractSid (p ++ handshakeSample) = sampleSid ∧
        shouldUpgrade (p ++ handshakeSample) = true) ∧
    extractSid malformedSample = [] ∧
    shouldUpgrade malformedSample = false := by
  refine ⟨?_, ?_, ?_, by decide, by decide⟩
  · intro body h
    unfold extractSid
    rw [if_neg h]
  · intro body h
    have hs : extractSid body = [] := by
      unfold extractSid
      split_ifs with hm
      · rw [h]
      · rfl
    exact ⟨hs, by simp [shouldUpgrade, hs]⟩
  · intro p hp
    have hbc : bodyContent (p ++ handshakeSample) = handshakeSample := by
      show bodyContent (p ++ (lbrace :: handshakeTail)) = lbrace :: handshakeTail
      exact bodyContent_append hp handshakeTail
    have hinf : sidMarker <:+: (p ++ handshakeSample) :=
      infix_append_left p (by decide)
    have hsid : extractSid (p ++ handshakeSample) = sampleSid := by
      unfold extractSid
      rw [if_pos hinf, hbc]
      rfl
    exact ⟨hsid, by simp [shouldUpgrade, hsid, sampleSid]⟩


/-- Witness for C10: a concrete length/type-prefixed body decodes to
the embedded sid. -/
theorem c10_sid_decoder_total_witness :
    extractSid (('9' :: '7' :: ':' :: '0' :: []) ++ handshakeSample) = sampleSid ∧
    shouldUpgrade (('9' :: '7' :: ':' :: '0' :: []) ++ handshakeSample) = true :=
  c10_sid_decoder_total.2.2.1 ('9' :: '7' :: ':' :: '0' :: []) (by decide)

end SalesMaster
